import Mathlib

/- Shallow embedding of the request-multiplexing channel of dev.c (portworx
pxmod).

Heap convention: the C code stores `struct fuse_req *` pointers both in the
Slot Table (`fc->request_map`) and in the Ring Queue (`fc->queue.w.requests`).
Here the Slot Table is the backing store of request values, and a pointer is
represented by the request's identifier: a Ring Queue slot holds the id, and
dereferencing goes through the Slot Table at index `id % N`.  Machine u64
arithmetic is `Nat` reduced modulo 2^64 where the C overflows.

Sizes and protocol constants that come from headers not present in the
sources (fuse_i.h, pxd.h) are parameters: `N` is both FUSE_MAX_REQUEST_IDS
and FUSE_REQUEST_QUEUE_SIZE (modelled from the spec: both the Slot Table and
the Ring Queue are sized to the maximum number of simultaneously in-flight
identifiers, and dev.c iterates the request map with the queue-size bound),
`PC` is FUSE_MAX_PER_CPU_IDS, `nCpu` the number of CPUs, `HDR` is
sizeof(struct fuse_in_header), `SZOH` sizeof(struct fuse_out_header),
`SZRD` sizeof(struct pxd_read_data_out), `SZIOV` sizeof(struct iovec),
`LBS` the logical block size (PXD_LBS_MASK = LBS - 1).  Opcode values are
distinct tokens whose numeric value is irrelevant. -/

namespace PxDev

/-- Linux errno values used by dev.c (negated at use sites, as in C). -/
def ENOENT : Int := 2

def EIO' : Int := 5

def EAGAIN : Int := 11

def EFAULT : Int := 14

def ENODEV : Int := 19

def EINVAL : Int := 22

def ECONNABORTED : Int := 103

def ENOTCONN : Int := 107

def ERESTARTSYS : Int := 512

/-- Wire opcodes from the pxd headers (values arbitrary but distinct). -/
def PXD_READ : Nat := 1

def PXD_WRITE : Nat := 2

def PXD_DISCARD : Nat := 3

def PXD_WRITE_SAME : Nat := 4

/-- Control-message codes of enum fuse_notify_code (carried in oh.error). -/
def PXD_READ_DATA : Int := 101

def PXD_ADD : Int := 102

def PXD_REMOVE : Int := 103

def PXD_UPDATE_SIZE : Int := 104

/-- Modulus of the C `u64` type. -/
def U64 : Nat := 2 ^ 64

/-- One in-flight request: the fields of struct fuse_req that dev.c reads or
writes.  `args` lists in.args[i].size; `rqZero` is the precomputed outcome of
the byte scan of fuse_convert_zero_writes (true iff every data byte of
req->rq is zero); `rqSegs` lists the bv_len of the bio segments of req->rq. -/
structure Req where
  unique : Nat := 0
  len : Nat := 0
  opcode : Nat := 0
  sequence : Nat := 0
  args : List Nat := []
  rdwrSize : Nat := 0
  rdwrFlagsSync : Bool := false
  rdwrOffset : Nat := 0
  rqSegs : List Nat := []
  rqZero : Bool := true
  outLen : Nat := 0
  outUnique : Nat := 0
  outError : Int := 0
deriving Repr, DecidableEq

/-- The fuse_conn state: connection flags, the two-level id allocator
(`freeIds` global pool and `perCpu` caches, head of list = top of stack),
the Slot Table `requestMap`, and the Ring Queue with its writer cursor pair
(`wRead`, `wWrite`), reader cursor pair (`rRead`, `rWrite`) and sequence
counter.  `ended` is a ghost log of request_end events: one entry
(unique, out.h.error) per invocation of the end callback. -/
structure Conn where
  connected : Bool := true
  allowDisconnected : Bool := false
  freeIds : List Nat := []
  perCpu : Nat → List Nat := fun _ => []
  requestMap : List (Option Req) := []
  ringSlots : List (Option Nat) := []
  wRead : Nat := 0
  wWrite : Nat := 0
  rRead : Nat := 0
  rWrite : Nat := 0
  wSequence : Nat := 1
  ended : List (Nat × Int) := []

variable (N PC : Nat)

/-- The identifier offset of fuse_get_unique (dev.c:161): `uid` is offset by
FUSE_MAX_REQUEST_IDS in u64 arithmetic, re-offset if it lands on 0 (zero is
the control-message sentinel). -/
def offsetUid (v : Nat) : Nat :=
  if (v + N) % U64 = 0 then ((v + N) % U64 + N) % U64 else (v + N) % U64

/-- fuse_get_unique (dev.c:135).  Pops from the CPU-local cache, refilling
`min(fc->num_free_ids, FUSE_MAX_PER_CPU_IDS / 2)` ids from the top of the
global pool when the cache is empty; `none` models the
BUG_ON(fc->num_free_ids == 0) (and the out-of-bounds pop that a refill of
zero ids would produce). -/
def fuse_get_unique (c : Conn) (cpu : Nat) : Option (Nat × Conn) :=
  if (c.perCpu cpu).isEmpty then
    if c.freeIds.isEmpty then none
    else
      match c.freeIds.take (min c.freeIds.length (PC / 2)) with
      | [] => none
      | v :: rest =>
        some (offsetUid N v,
          { c with freeIds := c.freeIds.drop (min c.freeIds.length (PC / 2)),
                   perCpu := Function.update c.perCpu cpu rest })
  else
    match c.perCpu cpu with
    | [] => none
    | v :: rest =>
      some (offsetUid N v, { c with perCpu := Function.update c.perCpu cpu rest })

/-- fuse_put_unique (dev.c:170).  Flushes the top half of a full CPU-local
cache back to the global pool (`none` models the BUG_ON on global-pool
overflow), pushes the id locally, and clears the Slot Table entry
`request_map[uid & (FUSE_MAX_REQUEST_IDS - 1)]`. -/
def fuse_put_unique (c : Conn) (cpu : Nat) (uid : Nat) : Option Conn :=
  if (c.perCpu cpu).length = PC then
    if N < c.freeIds.length + PC / 2 then none
    else
      some { c with
        freeIds := (c.perCpu cpu).take (PC / 2) ++ c.freeIds,
        perCpu := Function.update c.perCpu cpu (uid :: (c.perCpu cpu).drop (PC / 2)),
        requestMap := c.requestMap.set (uid % N) none }
  else
    some { c with
      perCpu := Function.update c.perCpu cpu (uid :: c.perCpu cpu),
      requestMap := c.requestMap.set (uid % N) none }

/-- request_find (dev.c:499).  Direct-indexed lookup at `unique % N`,
returning NULL when the slot is empty or holds a request whose own
identifier differs from the one asked for. -/
def request_find (c : Conn) (unique : Nat) : Option Req :=
  match c.requestMap.getD (unique % N) none with
  | none => none
  | some req => if req.unique ≠ unique then none else some req

/-- request_end (dev.c:231).  Invokes the end callback (logged in `ended`
with the request's out.h.error) and reclaims the identifier. -/
def request_end (c : Conn) (cpu : Nat) (req : Req) : Option Conn :=
  fuse_put_unique N PC { c with ended := c.ended ++ [(req.unique, req.outError)] }
    cpu req.unique

/-- queue_request (dev.c:198).  Advances the writer cursor, refreshing the
writer's cached read cursor on apparent collision; `none` models the
BUG_ON capacity assertion.  The enqueued request is stamped with the next
sequence number (a store through the request pointer, i.e. into the Slot
Table here). -/
def queue_request (c : Conn) (uid : Nat) : Option Conn :=
  let write := c.wWrite
  let next := (write + 1) % N
  let wRead := if c.wRead = next then c.rRead else c.wRead
  if next = wRead then none
  else
    some { c with
      ringSlots := c.ringSlots.set write (some uid),
      requestMap := (c.requestMap.set (uid % N)
        ((c.requestMap.getD (uid % N) none).map
          fun r => { r with sequence := c.wSequence })),
      wSequence := c.wSequence + 1,
      wWrite := next,
      wRead := wRead }

/-- len_args (dev.c:124): total size of the argument array. -/
def len_args (args : List Nat) : Nat := args.foldl (· + ·) 0

variable (HDR : Nat)

/-- fuse_request_send_nowait (dev.c:242).  Computes in.h.len, draws a unique
id, registers the request in the Slot Table, then either enqueues and wakes
the consumer (connected or degraded mode) or finalizes the request with
-ENOTCONN on the spot. -/
def fuse_request_send_nowait (c : Conn) (cpu : Nat) (req : Req) :
    Option Conn :=
  match fuse_get_unique N PC c cpu with
  | none => none
  | some (uid, c1) =>
    let req1 := { req with len := HDR + len_args req.args, unique := uid }
    let c2 := { c1 with requestMap := c1.requestMap.set (uid % N) (some req1) }
    if c2.connected || c2.allowDisconnected then
      queue_request N c2 uid
    else
      let req2 := { req1 with outError := -ENOTCONN }
      let c3 := { c2 with requestMap := c2.requestMap.set (uid % N) (some req2) }
      request_end N PC c3 cpu req2

/-- C7: Slot-Table lookup compares the stored request's own identifier field
against the requested identifier, so lookup of an identifier whose slot has
been reused by a request with a different identifier returns NotFound (NULL)
rather than the aliased request. -/
theorem request_find_stale_slot (c : Conn) (u : Nat) (req : Req)
    (hslot : c.requestMap.getD (u % N) none = some req)
    (hne : req.unique ≠ u) :
    request_find N c u = none := by
  unfold request_find
  rw [hslot]
  simp [hne]

/-- Witness for C7: a concrete connection whose slot `1 % 4` holds a request
with identifier 5; lookup of identifier 1 misses. -/
theorem request_find_stale_slot_w :
    request_find 4
      { requestMap := [none, some { unique := 5 }, none, none] } 1 = none :=
  request_find_stale_slot 4 { requestMap := [none, some { unique := 5 }, none, none] }
    1 { unique := 5 } (by decide) (by decide)

/-- A connection whose global pool holds three free ids and whose CPU-local
caches are empty, used to exercise the refill path of fuse_get_unique. -/
def refillConn : Conn := { freeIds := [10, 11, 12] }

/-- Counterexample for C6: with three identifiers remaining in the global
pool and FUSE_MAX_PER_CPU_IDS = 8, an acquire on an exhausted CPU cache
takes all three remaining ids (the global pool is left empty), which is more
than half of what remained (3 / 2 = 1): the refill amount is capped by half
the per-CPU cache capacity, not by half of the remaining global pool. -/
theorem fuse_get_unique_takes_more_than_half_remaining :
    (fuse_get_unique 16 8 refillConn 0).map (fun p => p.2.freeIds) = some [] ∧
      refillConn.freeIds.length = 3 ∧ ¬ (3 - 0 ≤ 3 / 2) := by
  constructor
  · rfl
  · constructor
    · rfl
    · decide

/-- C6 (amended): when the CPU-local cache is exhausted, acquire refills it
with `min(global remaining, FUSE_MAX_PER_CPU_IDS / 2)` identifiers taken
from the global pool (all of what remains when less than half the per-CPU
cache capacity remains); and every release into a full CPU-local cache
first flushes exactly `FUSE_MAX_PER_CPU_IDS / 2` identifiers back to the
global pool before storing the released identifier locally. -/
theorem fuse_unique_refill_flush_halves (c : Conn) (cpu uid : Nat)
    (hPC : 2 ≤ PC) :
    (c.perCpu cpu = [] → c.freeIds ≠ [] →
      ∃ u c', fuse_get_unique N PC c cpu = some (u, c') ∧
        c'.freeIds = c.freeIds.drop (min c.freeIds.length (PC / 2)) ∧
        c'.perCpu cpu = (c.freeIds.take (min c.freeIds.length (PC / 2))).tail) ∧
    ((c.perCpu cpu).length = PC → c.freeIds.length + PC / 2 ≤ N →
      ∃ c', fuse_put_unique N PC c cpu uid = some c' ∧
        c'.freeIds = (c.perCpu cpu).take (PC / 2) ++ c.freeIds ∧
        c'.perCpu cpu = uid :: (c.perCpu cpu).drop (PC / 2)) := by
  constructor
  · intro hcache hglobal
    have hlen : 0 < c.freeIds.length := List.length_pos.mpr hglobal
    have htk : 0 < (c.freeIds.take (min c.freeIds.length (PC / 2))).length := by
      rw [List.length_take]
      omega
    obtain ⟨v, rest, hl⟩ :=
      List.exists_cons_of_ne_nil (List.length_pos.mp htk)
    have hge : c.freeIds.isEmpty = false := by
      cases hfi : c.freeIds with
      | nil => exact absurd hfi hglobal
      | cons a l => rfl
    have hce : (c.perCpu cpu).isEmpty = true := by rw [hcache]; rfl
    refine ⟨offsetUid N v,
      { c with freeIds := c.freeIds.drop (min c.freeIds.length (PC / 2)),
               perCpu := Function.update c.perCpu cpu rest }, ?_, rfl, ?_⟩
    · unfold fuse_get_unique
      rw [hce, hl, hge]
      rfl
    · simp [hl]
  · intro hfull hcap
    refine ⟨{ c with
        freeIds := (c.perCpu cpu).take (PC / 2) ++ c.freeIds,
        perCpu := Function.update c.perCpu cpu (uid :: (c.perCpu cpu).drop (PC / 2)),
        requestMap := c.requestMap.set (uid % N) none }, ?_, rfl, ?_⟩
    · unfold fuse_put_unique
      rw [if_pos hfull, if_neg (by omega)]
    · simp

/-- A connection with a full CPU-local cache (capacity 4), used to exercise
the flush path of fuse_put_unique. -/
def flushConn : Conn := { freeIds := [9], perCpu := fun _ => [1, 2, 3, 4] }

/-- Witness for C6: at capacity PC = 8 a refill from a 3-element global pool
moves all three ids; at capacity PC = 4 a release into a full 4-element
cache flushes exactly 2 ids to the global pool. -/
theorem fuse_unique_refill_flush_halves_w :
    (∃ u c', fuse_get_unique 16 8 refillConn 0 = some (u, c') ∧
      c'.freeIds = refillConn.freeIds.drop (min refillConn.freeIds.length (8 / 2)) ∧
      c'.perCpu 0 = (refillConn.freeIds.take (min refillConn.freeIds.length (8 / 2))).tail) ∧
    (∃ c', fuse_put_unique 16 4 flushConn 0 7 = some c' ∧
      c'.freeIds = (flushConn.perCpu 0).take (4 / 2) ++ flushConn.freeIds ∧
      c'.perCpu 0 = 7 :: (flushConn.perCpu 0).drop (4 / 2)) :=
  ⟨(fuse_unique_refill_flush_halves 16 8 refillConn 0 7 (by decide)).1 rfl (by decide),
   (fuse_unique_refill_flush_halves 16 4 flushConn 0 7 (by decide)).2 rfl (by decide)⟩

/-- C8: a submission attempted while the channel is disconnected and
degraded-mode submission is disabled is finalized immediately with
-ENOTCONN — its end callback runs once and its identifier is reclaimed into
the CPU-local cache — and nothing is written to the Ring Queue (slots,
writer cursor and sequence counter are untouched); the Slot Table slot the
request briefly occupied is cleared again. -/
theorem send_nowait_disconnected (c : Conn) (cpu : Nat) (req : Req)
    (v : Nat) (rest : List Nat)
    (hconn : c.connected = false) (hallow : c.allowDisconnected = false)
    (hcache : c.perCpu cpu = v :: rest) (hnofl : rest.length ≠ PC) :
    ∃ uid c', fuse_request_send_nowait N PC HDR c cpu req = some c' ∧
      c'.ringSlots = c.ringSlots ∧ c'.wWrite = c.wWrite ∧
      c'.wRead = c.wRead ∧ c'.wSequence = c.wSequence ∧
      c'.freeIds = c.freeIds ∧
      c'.ended = c.ended ++ [(uid, -ENOTCONN)] ∧
      c'.perCpu cpu = uid :: rest ∧
      c'.requestMap = c.requestMap.set (uid % N) none := by
  have hne : (c.perCpu cpu).isEmpty = false := by rw [hcache]; rfl
  have hstep : fuse_request_send_nowait N PC HDR c cpu req = some
      { c with
        perCpu := Function.update (Function.update c.perCpu cpu rest) cpu
          (offsetUid N v :: rest),
        requestMap := c.requestMap.set (offsetUid N v % N) none,
        ended := c.ended ++ [(offsetUid N v, -ENOTCONN)] } := by
    unfold fuse_request_send_nowait fuse_get_unique request_end fuse_put_unique
    rw [hne, hcache]
    simp [hconn, hallow, hnofl, List.set_set]
  exact ⟨offsetUid N v, _, hstep, rfl, rfl, rfl, rfl, rfl, rfl,
    by simp, rfl⟩

/-- Witness for C8: a disconnected connection with degraded mode off; the
submitted request is finalized with -ENOTCONN and the queue is untouched. -/
theorem send_nowait_disconnected_w :
    ∃ uid c', fuse_request_send_nowait 4 2 16
      { connected := false, perCpu := fun _ => [3],
        requestMap := [none, none, none, none] } 0 { } = some c' ∧
      c'.ringSlots = ([] : List (Option Nat)) ∧ c'.wWrite = 0 ∧
      c'.wRead = 0 ∧ c'.wSequence = 1 ∧
      c'.freeIds = ([] : List Nat) ∧
      c'.ended = [(uid, -ENOTCONN)] ∧
      c'.perCpu 0 = [uid] ∧
      c'.requestMap = ([none, none, none, none] : List (Option Req)).set (uid % 4) none := by
  obtain ⟨uid, c', h⟩ := send_nowait_disconnected 4 2 16
    { connected := false, perCpu := fun _ => [3],
      requestMap := [none, none, none, none] } 0 { } 3 []
    rfl rfl rfl (by decide)
  exact ⟨uid, c', h⟩

/-- The consumer-supplied buffer of the write path (struct iov_iter).  The
wire bytes are modelled pre-decoded: `ohLen`, `ohUnique`, `ohError` are the
fuse_out_header fields at the head of the buffer; `rdUnique`, `rdOffset`,
`rdIovcnt` the pxd_read_data_out fields that follow a PXD_READ_DATA control
header; `iovs` the lengths of the iovec descriptors supplied for the data
fetch.  `count` is iter->count; `good` models userspace faults as the
number of bytes that can still be copied before a copy first falls short. -/
structure WIter where
  count : Nat := 0
  good : Nat := 0
  ohLen : Nat := 0
  ohUnique : Nat := 0
  ohError : Int := 0
  rdUnique : Nat := 0
  rdOffset : Nat := 0
  rdIovcnt : Nat := 0
  iovs : List Nat := []
deriving Repr, DecidableEq

/-- copy_from_iter of `len` bytes: reports whether all of them were copied
and consumes them from the iterator. -/
def copy_from_iter (len : Nat) (it : WIter) : Bool × WIter :=
  if len ≤ it.count ∧ len ≤ it.good then
    (true, { it with count := it.count - len, good := it.good - len })
  else
    (false, { it with count := it.count - len, good := it.good - len })

/-- IOV_BUF_SIZE (dev.c:514). -/
def IOV_BUF_SIZE : Nat := 64

variable (SZIOV : Nat)

/-- copy_in_read_data_iovec (dev.c:516).  Pulls up to IOV_BUF_SIZE iovec
descriptors out of the control message, decrementing the remaining iovec
count, and initializes the destination data iterator (modelled by its byte
capacity: the total length of the pulled iovecs).  Returns the advanced
message iterator, the data capacity and the remaining iovec count. -/
def copy_in_read_data_iovec (it : WIter) (iovcnt : Nat) :
    Except Int (WIter × Nat × Nat) :=
  if iovcnt = 0 then Except.error (-EFAULT)
  else
    let cnt := min iovcnt IOV_BUF_SIZE
    let (ok, it1) := copy_from_iter (cnt * SZIOV) it
    if ok then
      Except.ok ({ it1 with iovs := it1.iovs.drop cnt },
        (it1.iovs.take cnt).foldl (· + ·) 0, iovcnt - cnt)
    else Except.error (-EFAULT)

/-- The rq_for_each_segment loop of fuse_notify_read_data (dev.c:583):
walks the request's bio segments, skips the first `rdOffset` payload bytes,
copies the rest into the destination capacity, pulling more iovec
descriptors mid-loop when the destination runs out (returning 0 early if
the control message holds no more of them).  Returns the result code and
the total number of payload bytes copied out. -/
def read_data_segments (rdOffset : Nat) :
    List Nat → WIter → Nat → Nat → Nat → Nat → Int × Nat
  | [], _it, _cap, _iovcnt, _skipped, total => (0, total)
  | len :: segs, it, cap, iovcnt, skipped, total =>
    let copied := if skipped < rdOffset then
        (if len ≤ rdOffset - skipped then len else rdOffset - skipped) else 0
    let skipped1 := if skipped < rdOffset then
        (if len ≤ rdOffset - skipped then skipped + len else rdOffset) else skipped
    if copied < len then
      let copyThis := min (len - copied) cap
      if copyThis ≠ len - copied then
        if it.count = 0 then (0, total + copyThis)
        else
          match copy_in_read_data_iovec SZIOV it iovcnt with
          | Except.error e => (e, total + copyThis)
          | Except.ok (it2, cap2, iovcnt2) =>
            let len2 := len - copied
            let copied2 := min len2 cap2
            if copied2 ≠ len2 then (-EFAULT, total + copyThis + copied2)
            else read_data_segments rdOffset segs it2 (cap2 - copied2) iovcnt2
              skipped1 (total + copyThis + copied2)
      else read_data_segments rdOffset segs it (cap - copyThis) iovcnt
        skipped1 (total + copyThis)
    else read_data_segments rdOffset segs it cap iovcnt skipped1 total

variable (SZRD LBS : Nat)

/-- fuse_notify_read_data (dev.c:539): decode the pxd_read_data_out struct,
locate the owning request, insist it is a write-class request, then stream
its payload into the consumer's iovecs starting at the requested offset.
Returns the result code and the number of payload bytes copied out. -/
def fuse_notify_read_data (c : Conn) (it : WIter) : Int × Nat :=
  let (ok, it1) := copy_from_iter SZRD it
  if ¬ ok then (-EFAULT, 0)
  else
    match request_find N c it1.rdUnique with
    | none => (-ENOENT, 0)
    | some req =>
      if req.opcode ≠ PXD_WRITE ∧ req.opcode ≠ PXD_WRITE_SAME then (-EINVAL, 0)
      else
        match copy_in_read_data_iovec SZIOV it1 it1.rdIovcnt with
        | Except.error e => (e, 0)
        | Except.ok (it2, cap, iovcnt2) =>
          let cap := if req.rdwrOffset % LBS ≠ 0 then cap - req.rdwrOffset % LBS
            else cap
          read_data_segments SZIOV it1.rdOffset req.rqSegs it2 cap iovcnt2 0 0

variable (SZADD SZREMOVE SZUPD : Nat)

/-- fuse_notify_add, fuse_notify_remove, fuse_notify_update_size (dev.c:485,
624, 637): decode a fixed-size struct and hand it to the external
collaborator.  Modelled from the spec: pxd_add, pxd_remove and
pxd_update_size are device-registration collaborators outside this core;
their result is modelled as success, only the copy step belongs to dev.c. -/
def fuse_notify_struct (sz : Nat) (it : WIter) : Int :=
  let (ok, _it1) := copy_from_iter sz it
  if ok then 0 else -EFAULT

/-- fuse_notify (dev.c:650): control-message dispatch on the code carried in
oh.error. -/
def fuse_notify (c : Conn) (code : Int) (it : WIter) : Int × Nat :=
  if code = PXD_READ_DATA then fuse_notify_read_data N SZIOV SZRD LBS c it
  else if code = PXD_ADD then (fuse_notify_struct SZADD it, 0)
  else if code = PXD_REMOVE then (fuse_notify_struct SZREMOVE it, 0)
  else if code = PXD_UPDATE_SIZE then (fuse_notify_struct SZUPD it, 0)
  else (-EINVAL, 0)

/-- The copy of a PXD_READ completion's payload into the request's bio
segments (dev.c:716): copy_page_from_iter per segment, failing as soon as a
segment is not copied whole. -/
def copy_read_payload : List Nat → WIter → Option WIter
  | [], it => some it
  | len :: segs, it =>
    let (ok, it1) := copy_from_iter len it
    if ok then copy_read_payload segs it1 else none

variable (SZOH : Nat)

/-- fuse_dev_do_write (dev.c:674): copy and validate the fuse_out_header,
dispatch control messages (zero correlation id), validate the completion
status range, locate the request by identifier, store the header into the
request, copy inbound payload for PXD_READ completions, and finalize the
request.  Returns the syscall result and the new connection state; `none`
models the BUG_ON in identifier reclamation. -/
def fuse_dev_do_write (c : Conn) (cpu : Nat) (it : WIter) :
    Option (Int × Conn) :=
  let nbytes := it.count
  if it.count < SZOH then some (-EINVAL, c)
  else
    let (ok, it1) := copy_from_iter SZOH it
    if ¬ ok then some (-EFAULT, c)
    else if it1.ohLen ≠ nbytes then some (-EINVAL, c)
    else if it1.ohUnique = 0 then
      let r := fuse_notify N SZIOV SZRD LBS SZADD SZREMOVE SZUPD c it1.ohError it1
      some (if r.1 ≠ 0 then r.1 else (nbytes : Int), c)
    else if it1.ohError ≤ -1000 ∨ 0 < it1.ohError then some (-EINVAL, c)
    else
      match request_find N c it1.ohUnique with
      | none => some (-ENOENT, c)
      | some req =>
        let req1 := { req with outLen := it1.ohLen, outUnique := it1.ohUnique,
                               outError := it1.ohError }
        let c1 := { c with
          requestMap := c.requestMap.set (it1.ohUnique % N) (some req1) }
        if req1.opcode = PXD_READ ∧ 0 < it1.count then
          match copy_read_payload req1.rqSegs it1 with
          | none => some (-EFAULT, c1)
          | some _it2 =>
            match request_end N PC c1 cpu req1 with
            | none => none
            | some c2 => some ((nbytes : Int), c2)
        else
          match request_end N PC c1 cpu req1 with
          | none => none
          | some c2 => some ((nbytes : Int), c2)

/-- C9: a completion message (non-zero correlation identifier, valid header
and status) naming an identifier with no matching in-flight request makes
the write call fail with -ENOENT and leaves the connection state — Slot
Table, Ring Queue, allocator, end-callback log — completely unchanged. -/
theorem do_write_unknown_id (c : Conn) (cpu : Nat) (it : WIter)
    (hsz : SZOH ≤ it.count) (hgood : SZOH ≤ it.good)
    (hlen : it.ohLen = it.count) (hu : it.ohUnique ≠ 0)
    (herr : ¬ (it.ohError ≤ -1000 ∨ 0 < it.ohError))
    (hfind : request_find N c it.ohUnique = none) :
    fuse_dev_do_write N PC SZIOV SZRD LBS SZADD SZREMOVE SZUPD SZOH c cpu it
      = some (-ENOENT, c) := by
  unfold fuse_dev_do_write copy_from_iter
  rw [if_neg (by omega), if_pos (And.intro hsz hgood)]
  simp [hlen, hu, herr, hfind]

/-- Witness for C9: a well-formed completion for identifier 0xdead on a
connection with an empty Slot Table fails with -ENOENT and no state
change. -/
theorem do_write_unknown_id_w :
    fuse_dev_do_write 4 2 8 16 512 24 16 8 32
      { requestMap := [none, none, none, none] } 0
      { count := 40, good := 40, ohLen := 40, ohUnique := 0xdead,
        ohError := 0 }
      = some (-ENOENT, { requestMap := [none, none, none, none] }) :=
  do_write_unknown_id 4 2 8 16 512 24 16 8 32
    { requestMap := [none, none, none, none] } 0
    { count := 40, good := 40, ohLen := 40, ohUnique := 0xdead, ohError := 0 }
    (by decide) (by decide) rfl (by decide) (by decide) rfl

/-- C10: an out-of-band data-fetch control message whose identifier resolves
to an in-flight request that is not a write-class request (neither PXD_WRITE
nor PXD_WRITE_SAME) fails with -EINVAL and copies no payload data. -/
theorem notify_read_data_not_write (c : Conn) (it : WIter) (req : Req)
    (hsz : SZRD ≤ it.count) (hgood : SZRD ≤ it.good)
    (hfind : request_find N c it.rdUnique = some req)
    (hw : req.opcode ≠ PXD_WRITE) (hws : req.opcode ≠ PXD_WRITE_SAME) :
    fuse_notify_read_data N SZIOV SZRD LBS c it = (-EINVAL, 0) := by
  unfold fuse_notify_read_data copy_from_iter
  rw [if_pos (And.intro hsz hgood)]
  simp [hfind, hw, hws]

/-- Witness for C10: a data-fetch naming a PXD_READ request fails with
-EINVAL and copies nothing. -/
theorem notify_read_data_not_write_w :
    fuse_notify_read_data 4 8 16 512
      { requestMap := [none, some { unique := 1, opcode := PXD_READ }, none, none] }
      { count := 32, good := 32, rdUnique := 1 } = (-EINVAL, 0) :=
  notify_read_data_not_write 4 8 16 512
    { requestMap := [none, some { unique := 1, opcode := PXD_READ }, none, none] }
    { count := 32, good := 32, rdUnique := 1 }
    { unique := 1, opcode := PXD_READ }
    (by decide) (by decide) rfl (by decide) (by decide)

/-- The consumer-supplied buffer of the read path (struct iov_iter):
`count` is the remaining capacity, `good` the number of bytes that can
still be copied before a userspace fault makes copy_to_iter fall short. -/
structure OIter where
  count : Nat := 0
  good : Nat := 0
deriving Repr, DecidableEq

/-- copy_to_iter: copies as many of `len` bytes as capacity and fault-free
space allow, returning the number copied. -/
def copy_to_iter (len : Nat) (it : OIter) : Nat × OIter :=
  let n := min len (min it.count it.good)
  (n, { count := it.count - n, good := it.good - n })

/-- fuse_copy_req_read (dev.c:299): serialize one request as its
fuse_in_header followed by in.args[0]; -EFAULT as soon as a copy falls
short, otherwise the number of bytes written. -/
def fuse_copy_req_read (req : Req) (it : OIter) : Int × OIter :=
  let r1 := copy_to_iter HDR it
  if r1.1 ≠ HDR then (-EFAULT, r1.2)
  else
    let len := req.args.getD 0 0
    let r2 := copy_to_iter len r1.2
    if r2.1 ≠ len then (-EFAULT, r2.2)
    else (((HDR + len : Nat) : Int), r2.2)

/-- fuse_convert_zero_writes (dev.c:324): scans the request's payload and,
when every byte is zero, rewrites the opcode to PXD_DISCARD (`rqZero` is
the precomputed outcome of the byte scan). -/
def fuse_convert_zero_writes (req : Req) : Req :=
  if req.rqZero then { req with opcode := PXD_DISCARD } else req

/-- request_pending (dev.c:263): compares the reader's cached cursors
first, re-reading the writer's write cursor into the cache only when the
cached values look equal. -/
def request_pending (c : Conn) : Bool × Conn :=
  if c.rRead ≠ c.rWrite then (true, c)
  else if c.rRead = c.wWrite then (false, c)
  else (true, { c with rWrite := c.wWrite })

variable (pxd_detect_zero_writes : Bool)

/-- The dequeue-and-serialize while loop of fuse_dev_do_read (dev.c:395):
at most `n` iterations (callers pass the ring capacity, an upper bound on
the number of queued slots).  Stops at the write cursor or at the first
request whose header length field exceeds the remaining buffer; each
dequeued request is serialized after the zero-write conversion check, a
serialization failure finalizing that one request with -EIO and continuing
with the rest.  Returns (conn, read cursor, remaining, iterator, copied);
`none` models dereferencing an invalid ring entry and the BUG_ON paths of
identifier reclamation. -/
def fuse_read_drain (cpu : Nat) :
    Nat → Conn → Nat → Nat → Int → OIter → Int →
    Option (Conn × Nat × Int × OIter × Int)
  | 0, c, read, _write, remain, it, copied => some (c, read, remain, it, copied)
  | n + 1, c, read, write, remain, it, copied =>
    if read = write then some (c, read, remain, it, copied)
    else
      match c.ringSlots.getD read none with
      | none => none
      | some uid =>
        match c.requestMap.getD (uid % N) none with
        | none => none
        | some req =>
          if (req.len : Int) > remain then some (c, read, remain, it, copied)
          else
            let c1 := { c with ringSlots := c.ringSlots.set read none }
            let read1 := (read + 1) % N
            let req1 := if pxd_detect_zero_writes ∧ req.opcode = PXD_WRITE ∧
                req.rdwrSize ≠ 0 ∧ ¬ req.rdwrFlagsSync
              then fuse_convert_zero_writes req else req
            let c2 := { c1 with
              requestMap := c1.requestMap.set (uid % N) (some req1) }
            let r := fuse_copy_req_read HDR req1 it
            if r.1 < 0 then
              let req2 := { req1 with outError := -EIO' }
              let c3 := { c2 with
                requestMap := c2.requestMap.set (uid % N) (some req2) }
              match request_end N PC c3 cpu req2 with
              | none => none
              | some c4 => fuse_read_drain cpu n c4 read1 write remain r.2 copied
            else
              fuse_read_drain cpu n c2 read1 write (remain - r.1) r.2 (copied + r.1)

/-- The retry loop of fuse_dev_do_read (dev.c:391): one drain pass per fuel
unit, updating the reader cursor and retrying — the `goto retry` — while
buffer space remains and requests are pending.  `none` on fuel exhaustion
models a call that never leaves the loop. -/
def fuse_read_go (cpu : Nat) :
    Nat → Conn → Int → OIter → Int → Option (Int × Conn)
  | 0, _c, _remain, _it, _copied => none
  | fuel + 1, c, remain, it, copied =>
    match fuse_read_drain N PC HDR pxd_detect_zero_writes cpu N c c.rRead
        c.rWrite remain it copied with
    | none => none
    | some (c1, read1, remain1, it1, copied1) =>
      let c2 := { c1 with rRead := read1 }
      if remain1 ≠ 0 then
        match request_pending c2 with
        | (true, c3) => fuse_read_go cpu fuel c3 remain1 it1 copied1
        | (false, c3) => some (copied1, c3)
      else some (copied1, c2)

/-- fuse_dev_do_read (dev.c:368): wait (interruptibly) until work is
pending or the channel disconnects, then drain queued requests into the
consumer's buffer.  `nonblock` is O_NONBLOCK; `signal` whether a signal is
pending during the wait.  `none` models a call that never returns: either
blocked in request_wait with no signal and nothing arriving (nothing can
wake it in a single-threaded run), or never leaving the retry loop. -/
def fuse_dev_do_read (cpu : Nat) (fuel : Nat) (c : Conn)
    (nonblock signal : Bool) (it : OIter) : Option (Int × Conn) :=
  let remain : Int := it.count
  match request_pending c with
  | (true, c0) =>
    fuse_read_go N PC HDR pxd_detect_zero_writes cpu fuel c0 remain it 0
  | (false, c0) =>
    if nonblock && c0.connected then some (-EAGAIN, c0)
    else if c0.connected && !signal then none
    else if c0.connected = false then some (-ENODEV, c0)
    else some (-ERESTARTSYS, c0)

/-- Three pending requests of header length 20 each (identifiers 1, 2, 3 in
slots 1, 2, 3 and ring positions 0, 1, 2), exercising a read with a buffer
that holds two of them plus 10 spare bytes. -/
def hungConn : Conn :=
  { requestMap := [none, some { unique := 1, len := 20, args := [4] },
      some { unique := 2, len := 20, args := [4] },
      some { unique := 3, len := 20, args := [4] }, none, none, none, none],
    ringSlots := [some 1, some 2, some 3, none, none, none, none, none],
    rRead := 0, rWrite := 3, wRead := 0, wWrite := 3, wSequence := 4 }

/-- C4 (code bug): with requests A, B, C pending (20 serialized bytes each)
and a 50-byte buffer, the read call serializes A and B, but then — because
10 bytes remain and C is still pending — the `goto retry` at dev.c:425
loops forever instead of returning the 40 copied bytes and leaving C for
the next call: the call never returns, for every number of retry passes.
The claim (and dev.c:398's intent of leaving a too-large request for the
next call) holds only when the fitting requests exactly exhaust the
buffer. -/
theorem do_read_partial_fit_never_returns (fuel : Nat) :
    fuse_dev_do_read 8 4 16 false 0 fuel hungConn false false
      { count := 50, good := 100 } = none := by
  have stuck : ∀ n : Nat,
      fuse_read_go 8 4 16 false 0 n
        { requestMap := [none,
            some { unique := 1, len := 20, args := [4] },
            some { unique := 2, len := 20, args := [4] },
            some { unique := 3, len := 20, args := [4] }, none, none, none, none],
          ringSlots := [none, none, some 3, none, none, none, none, none],
          rRead := 2, rWrite := 3, wRead := 0, wWrite := 3, wSequence := 4 }
        10 { count := 10, good := 60 } 40 = none := by
    intro n
    induction n with
    | zero => rfl
    | succ m ih => exact ih
  cases fuel with
  | zero => rfl
  | succ m => exact stuck m

/-- A connection with one pending request, to be read with a non-empty
buffer on which every copy to userspace faults. -/
def faultConn : Conn :=
  { requestMap := [none, some { unique := 1, len := 20, args := [4] },
      none, none, none, none, none, none],
    ringSlots := [some 1, none, none, none, none, none, none, none],
    rRead := 0, rWrite := 1, wRead := 0, wWrite := 1, wSequence := 2 }

/-- Counterexample for C5: with one request pending and a non-empty
(100-byte) buffer whose copies fault, the read call dequeues the request,
finalizes it with -EIO, and returns 0 — although the connection is up, no
signal is pending, and a request was pending and was dequeued, so none of
the claim's permitted zero cases applies and the claim requires a positive
count or a negative error here. -/
theorem do_read_returns_zero_despite_pending :
    (fuse_dev_do_read 8 4 16 false 0 1 faultConn false false
      { count := 100, good := 0 }).map (fun p => p.1) = some 0 ∧
    (request_pending faultConn).1 = true ∧
    faultConn.connected = true ∧
    (fuse_dev_do_read 8 4 16 false 0 1 faultConn false false
      { count := 100, good := 0 }).map (fun p => p.2.ended)
      = some [(1, -EIO')] :=
  ⟨rfl, rfl, rfl, rfl⟩

/-- Identifier reclamation never touches the end-callback log, the reader
cursors or the writer's write cursor. -/
theorem fuse_put_unique_fields (c : Conn) (cpu uid : Nat) (c' : Conn)
    (h : fuse_put_unique N PC c cpu uid = some c') :
    c'.ended = c.ended ∧ c'.rRead = c.rRead ∧ c'.rWrite = c.rWrite ∧
      c'.wWrite = c.wWrite := by
  unfold fuse_put_unique at h
  split_ifs at h with h1 h2
  · injection h with h
    subst h
    exact ⟨rfl, rfl, rfl, rfl⟩
  · injection h with h
    subst h
    exact ⟨rfl, rfl, rfl, rfl⟩

/-- request_end appends exactly one entry to the end-callback log and
leaves the cursors alone. -/
theorem request_end_ended (c : Conn) (cpu : Nat) (req : Req) (c' : Conn)
    (h : request_end N PC c cpu req = some c') :
    c'.ended = c.ended ++ [(req.unique, req.outError)] ∧
      c'.rRead = c.rRead ∧ c'.rWrite = c.rWrite ∧ c'.wWrite = c.wWrite :=
  fuse_put_unique_fields N PC _ cpu req.unique c' h

/-- fuse_copy_req_read either faults or writes exactly header-plus-first-
argument bytes. -/
theorem fuse_copy_req_read_cases (req : Req) (it : OIter) :
    (fuse_copy_req_read HDR req it).1 = -EFAULT ∨
      (fuse_copy_req_read HDR req it).1
        = ((HDR + req.args.getD 0 0 : Nat) : Int) := by
  unfold fuse_copy_req_read
  simp only []
  split_ifs <;> simp

/-- A true request_pending leaves distinct reader cursors behind and does
not touch the end-callback log. -/
theorem request_pending_true (c c' : Conn)
    (h : request_pending c = (true, c')) :
    c'.rRead ≠ c'.rWrite ∧ c'.ended = c.ended := by
  unfold request_pending at h
  split_ifs at h with h1 h2
  · injection h with hb hc
    subst hc
    exact ⟨h1, rfl⟩
  · injection h with hb hc
    exact Bool.noConfusion hb
  · injection h with hb hc
    subst hc
    exact ⟨by simpa using h2, rfl⟩

/-- A false request_pending means both cursors agree with the writer's and
the state is unchanged. -/
theorem request_pending_false (c c' : Conn)
    (h : request_pending c = (false, c')) :
    c' = c ∧ c.rRead = c.rWrite ∧ c.rRead = c.wWrite := by
  unfold request_pending at h
  split_ifs at h with h1 h2
  · injection h with hb hc
    exact Bool.noConfusion hb
  · injection h with hb hc
    subst hc
    exact ⟨rfl, not_not.mp h1, h2⟩
  · injection h with hb hc
    exact Bool.noConfusion hb

/-- One drain pass only appends -EIO finalizations to the end-callback log,
never shrinks the copied count, conserves copied-plus-remaining, leaves the
cursor fields alone, and makes progress whenever it moves the read
cursor. -/
theorem fuse_read_drain_spec (cpu : Nat) (hH : 0 < HDR) :
    ∀ (n : Nat) (c : Conn) (read write : Nat) (remain : Int) (it : OIter)
      (copied : Int) (c1 : Conn) (read1 : Nat) (remain1 : Int) (it1 : OIter)
      (copied1 : Int),
      fuse_read_drain N PC HDR pxd_detect_zero_writes cpu n c read write
        remain it copied = some (c1, read1, remain1, it1, copied1) →
      ∃ add, c1.ended = c.ended ++ add ∧ (∀ p ∈ add, p.2 = -EIO') ∧
        copied ≤ copied1 ∧ copied1 + remain1 = copied + remain ∧
        c1.rRead = c.rRead ∧ c1.rWrite = c.rWrite ∧ c1.wWrite = c.wWrite ∧
        (read1 = read ∨ copied < copied1 ∨ add ≠ []) := by
  intro n
  induction n with
  | zero =>
    intro c read write remain it copied c1 read1 remain1 it1 copied1 h
    simp only [fuse_read_drain, Option.some.injEq, Prod.mk.injEq] at h
    obtain ⟨hc, hr, hm, hi, hcp⟩ := h
    subst hc; subst hr; subst hm; subst hi; subst hcp
    exact ⟨[], by simp, by simp, le_refl _, rfl, rfl, rfl, rfl, Or.inl rfl⟩
  | succ m ih =>
    intro c read write remain it copied c1 read1 remain1 it1 copied1 h
    rw [fuse_read_drain] at h
    by_cases hrw : read = write
    · rw [if_pos hrw] at h
      simp only [Option.some.injEq, Prod.mk.injEq] at h
      obtain ⟨hc, hr, hm, hi, hcp⟩ := h
      subst hc; subst hr; subst hm; subst hi; subst hcp
      exact ⟨[], by simp, by simp, le_refl _, rfl, rfl, rfl, rfl, Or.inl rfl⟩
    · rw [if_neg hrw] at h
      split at h
      · exact absurd h (by simp)
      · next uid hslot =>
        split at h
        · exact absurd h (by simp)
        · next req hreq =>
          by_cases hfit : (req.len : Int) > remain
          · rw [if_pos hfit] at h
            simp only [Option.some.injEq, Prod.mk.injEq] at h
            obtain ⟨hc, hr, hm, hi, hcp⟩ := h
            subst hc; subst hr; subst hm; subst hi; subst hcp
            exact ⟨[], by simp, by simp, le_refl _, rfl, rfl, rfl, rfl,
              Or.inl rfl⟩
          · rw [if_neg hfit] at h
            simp only [] at h
            set R : Req := if pxd_detect_zero_writes ∧ req.opcode = PXD_WRITE ∧
                req.rdwrSize ≠ 0 ∧ ¬ req.rdwrFlagsSync
              then fuse_convert_zero_writes req else req with hR
            by_cases hneg : (fuse_copy_req_read HDR R it).1 < 0
            · rw [if_pos hneg] at h
              split at h
              · exact absurd h (by simp)
              · next c4 hend =>
                obtain ⟨add2, he, hall, hle, hsum, hc4r, hc4w, hc4ww, hprog⟩ :=
                  ih _ _ _ _ _ _ _ _ _ _ _ h
                obtain ⟨hee, her, herw, heww⟩ :=
                  request_end_ended N PC _ cpu _ c4 hend
                refine ⟨(R.unique, -EIO') :: add2, ?_, ?_, hle, hsum, ?_, ?_,
                  ?_, Or.inr (Or.inr (by simp))⟩
                · rw [he, hee]
                  simp
                · intro p hp
                  rcases List.mem_cons.mp hp with h1 | h1
                  · rw [h1]
                  · exact hall p h1
                · exact hc4r.trans her
                · exact hc4w.trans herw
                · exact hc4ww.trans heww
            · rw [if_neg hneg] at h
              obtain ⟨add2, he, hall, hle, hsum, hcr, hcw, hcww, hprog⟩ :=
                ih _ _ _ _ _ _ _ _ _ _ _ h
              have hpos : 0 < (fuse_copy_req_read HDR R it).1 := by
                rcases fuse_copy_req_read_cases HDR R it with hc | hc
                · rw [hc] at hneg
                  exact absurd (by norm_num [EFAULT]) hneg
                · rw [hc]
                  exact_mod_cast Nat.lt_of_lt_of_le hH (Nat.le_add_right _ _)
              refine ⟨add2, by rw [he], hall, by omega, by omega, hcr, hcw,
                hcww, Or.inr (Or.inl (by omega))⟩

/-- The retry loop of the read path returns the final copied count; it only
appends -EIO finalizations to the end-callback log, and a zero return
means the buffer had no remaining space or some dequeued request was
finalized with -EIO. -/
theorem fuse_read_go_spec (cpu : Nat) (hH : 0 < HDR) :
    ∀ (fuel : Nat) (c : Conn) (remain : Int) (it : OIter) (copied : Int)
      (r : Int) (c' : Conn),
      c.rRead ≠ c.rWrite → 0 ≤ copied →
      fuse_read_go N PC HDR pxd_detect_zero_writes cpu fuel c remain it copied
        = some (r, c') →
      ∃ add, c'.ended = c.ended ++ add ∧ (∀ p ∈ add, p.2 = -EIO') ∧
        copied ≤ r ∧ (r = 0 → remain = 0 ∨ add ≠ []) := by
  intro fuel
  induction fuel with
  | zero =>
    intro c remain it copied r c' hne hc0 h
    exact absurd h (by simp [fuse_read_go])
  | succ m ih =>
    intro c remain it copied r c' hne hc0 h
    rw [fuse_read_go] at h
    split at h
    · exact absurd h (by simp)
    · next c1 read1 remain1 it1 copied1 hdrain =>
      simp only [] at h
      obtain ⟨add1, hde, hdall, hdle, hdsum, hdr, hdw, hdww, hdprog⟩ :=
        fuse_read_drain_spec N PC HDR pxd_detect_zero_writes cpu hH
          _ _ _ _ _ _ _ _ _ _ _ _ hdrain
      by_cases hrem : remain1 ≠ 0
      · rw [if_pos hrem] at h
        split at h
        · next c3 hpend =>
          obtain ⟨hner, hpe⟩ := request_pending_true _ _ hpend
          obtain ⟨add2, he2, hall2, hle2, hzero2⟩ :=
            ih c3 remain1 it1 copied1 r c' hner (le_trans hc0 hdle) h
          refine ⟨add1 ++ add2, ?_, ?_, le_trans hdle hle2, ?_⟩
          · rw [he2, hpe]
            rw [show ({ c1 with rRead := read1 } : Conn).ended = c1.ended
              from rfl, hde, List.append_assoc]
          · intro p hp
            rcases List.mem_append.mp hp with h1 | h1
            · exact hdall p h1
            · exact hall2 p h1
          · intro hr0
            rcases hzero2 hr0 with h1 | h1
            · exact absurd h1 hrem
            · exact Or.inr (by simp [List.append_eq_nil, h1])
        · next c3 hpend =>
          obtain ⟨hc3eq, hrr, hrw2⟩ := request_pending_false _ _ hpend
          simp only [Option.some.injEq, Prod.mk.injEq] at h
          obtain ⟨h1, h2⟩ := h
          subst h1
          subst h2
          subst hc3eq
          have hwne : read1 ≠ c.rRead := by
            have h3 : read1 = c1.rWrite := hrr
            rw [hdw] at h3
            rw [h3]
            exact fun hx => hne hx.symm
          have hprog2 : copied < copied1 ∨ add1 ≠ [] := by
            rcases hdprog with h1 | h1 | h1
            · exact absurd h1 hwne
            · exact Or.inl h1
            · exact Or.inr h1
          refine ⟨add1, hde, hdall, hdle, ?_⟩
          intro hr0
          rcases hprog2 with h1 | h1
          · omega
          · exact Or.inr h1
      · rw [if_neg hrem] at h
        simp only [Option.some.injEq, Prod.mk.injEq] at h
        obtain ⟨h1, h2⟩ := h
        subst h1
        subst h2
        refine ⟨add1, hde, hdall, hdle, ?_⟩
        intro hr0
        push_neg at hrem
        exact Or.inl (by omega)

/-- C5 (amended): the read call returns the number of bytes written; the
not-connected, nonblocking-empty and interrupted-wait conditions return
negative errors (never 0), and a return of 0 happens exactly when no bytes
were serialized: either the buffer was empty to begin with, or every
request dequeued in this call failed serialization and was finalized with
an I/O error (-EIO).  The claim's assertion that a pending request and a
non-empty buffer always yield a positive count or a negative error fails
on the serialization-failure path. -/
theorem do_read_zero_only_when_empty_or_eio (cpu fuel : Nat) (c : Conn)
    (nonblock signal : Bool) (it : OIter) (r : Int) (c' : Conn)
    (hH : 0 < HDR)
    (h : fuse_dev_do_read N PC HDR pxd_detect_zero_writes cpu fuel c nonblock
      signal it = some (r, c'))
    (hr : r = 0) :
    it.count = 0 ∨ ∃ add, add ≠ [] ∧ c'.ended = c.ended ++ add ∧
      ∀ p ∈ add, p.2 = -EIO' := by
  unfold fuse_dev_do_read at h
  simp only [] at h
  split at h
  · next c0 hpend =>
    obtain ⟨hner, hpe⟩ := request_pending_true _ _ hpend
    obtain ⟨add, he, hall, hle, hzero⟩ :=
      fuse_read_go_spec N PC HDR pxd_detect_zero_writes cpu hH fuel c0
        (it.count) it 0 r c' hner (le_refl 0) h
    rcases hzero hr with h1 | h1
    · exact Or.inl (by exact_mod_cast h1)
    · exact Or.inr ⟨add, h1, by rw [he, hpe], hall⟩
  · next c0 hpend =>
    split_ifs at h with h1 h2 h3
    · simp only [Option.some.injEq, Prod.mk.injEq] at h
      obtain ⟨hv, _⟩ := h
      rw [hr] at hv
      exact absurd hv.symm (by norm_num [EAGAIN])
    · simp only [Option.some.injEq, Prod.mk.injEq] at h
      obtain ⟨hv, _⟩ := h
      rw [hr] at hv
      exact absurd hv.symm (by norm_num [ENODEV])
    · simp only [Option.some.injEq, Prod.mk.injEq] at h
      obtain ⟨hv, _⟩ := h
      rw [hr] at hv
      exact absurd hv.symm (by norm_num [ERESTARTSYS])

/-- Witness for the amended C5: the read on the fault-prone connection
returns 0, and the theorem instantiated there yields the -EIO case. -/
theorem do_read_zero_only_when_empty_or_eio_w :
    ∃ c' : Conn,
      fuse_dev_do_read 8 4 16 false 0 1 faultConn false false
        { count := 100, good := 0 } = some (0, c') ∧
      (({ count := 100, good := 0 } : OIter).count = 0 ∨
        ∃ add, add ≠ [] ∧ c'.ended = faultConn.ended ++ add ∧
          ∀ p ∈ add, p.2 = -EIO') := by
  obtain ⟨c', hrc⟩ : ∃ c', fuse_dev_do_read 8 4 16 false 0 1 faultConn
      false false { count := 100, good := 0 } = some (0, c') := ⟨_, rfl⟩
  exact ⟨c', hrc, do_read_zero_only_when_empty_or_eio 8 4 16 false 0 1
    faultConn false false { count := 100, good := 0 } 0 c' (by decide)
    hrc rfl⟩

/-- The Slot-Table walk of end_queued_requests (dev.c:798), one index at a
time: an occupied entry gets out.h.error = -ECONNABORTED (a store through
the pointer, i.e. into its slot) and request_end; `none` models the BUG_ON
paths of identifier reclamation. -/
def endQueuedWalk (cpu : Nat) : List Nat → Conn → Option Conn
  | [], c => some c
  | i :: rest, c =>
    match c.requestMap.getD i none with
    | none => endQueuedWalk cpu rest c
    | some req =>
      let req1 := { req with outError := -ECONNABORTED }
      match request_end N PC
          { c with requestMap := c.requestMap.set i (some req1) } cpu req1 with
      | none => none
      | some c2 => endQueuedWalk cpu rest c2

/-- end_queued_requests (dev.c:793): walk the whole Slot Table (the loop
bound FUSE_REQUEST_QUEUE_SIZE equals the table size N, see the header
comment) and finalize every registered request with -ECONNABORTED. -/
def end_queued_requests (c : Conn) (cpu : Nat) : Option Conn :=
  endQueuedWalk N PC cpu (List.range N) c

/-- fuse_abort_conn (dev.c:928): on a connected channel, clear the
connection flag and finalize everything in the Slot Table; no effect when
already disconnected.  (The waiter wake-ups have no further observable
effect in this model.) -/
def fuse_abort_conn (c : Conn) (cpu : Nat) : Option Conn :=
  if c.connected then
    end_queued_requests N PC { c with connected := false } cpu
  else some c

variable (nCpu : Nat)

/-- All identifier tokens held by the allocator: the global pool plus every
CPU-local cache, as one multiset. -/
def allocTokens (c : Conn) : Multiset Nat :=
  (c.freeIds : Multiset Nat) +
    ∑ i ∈ Finset.range nCpu, ((c.perCpu i : List Nat) : Multiset Nat)

/-- Number of allocator-held identifier tokens. -/
def allocCount (c : Conn) : Nat :=
  c.freeIds.length + ∑ i ∈ Finset.range nCpu, (c.perCpu i).length

/-- Number of occupied Slot-Table entries. -/
def mapCount (c : Conn) : Nat := c.requestMap.countP (fun o => o.isSome)

/-- Slot-Table well-formedness: an occupied slot holds a request whose
identifier hashes to that slot. -/
def slotWF (c : Conn) : Prop :=
  ∀ i < N, ((c.requestMap.getD i none).all fun r => r.unique % N == i) = true

/-- The finalization log that aborting produces: one entry
(identifier, -ECONNABORTED) per occupied Slot-Table entry, in slot order. -/
def abortedOf (c : Conn) : List (Nat × Int) :=
  (List.range N).filterMap fun i =>
    (c.requestMap.getD i none).map fun r => (r.unique, -ECONNABORTED)

/-- The identifiers that aborting reclaims, in slot order. -/
def abortedIds (c : Conn) : List Nat :=
  (List.range N).filterMap fun i =>
    (c.requestMap.getD i none).map fun r => r.unique

theorem getD_set_same {α : Type} (l : List α) (i : Nat) (a d : α)
    (h : i < l.length) : (l.set i a).getD i d = a := by
  rw [List.getD_eq_getElem _ _ (by simpa using h)]
  exact List.getElem_set_self _

theorem getD_set_ne {α : Type} (l : List α) (i j : Nat) (a d : α)
    (h : i ≠ j) : (l.set i a).getD j d = l.getD j d := by
  simp [List.getD_eq_getElem?_getD, List.getElem?_set_ne h]

theorem countP_set_none {α : Type} (l : List (Option α)) (i : Nat) (r : α)
    (hi : i < l.length) (h : l.getD i none = some r) :
    (l.set i none).countP (fun o => o.isSome) + 1
      = l.countP (fun o => o.isSome) := by
  rw [List.getD_eq_getElem _ _ hi] at h
  have hpos : 0 < l.countP (fun o => o.isSome) := by
    rw [List.countP_pos_iff]
    exact ⟨l[i], List.getElem_mem hi, by rw [h]; rfl⟩
  rw [List.countP_set _ _ _ _ hi, h]
  simp only [Option.isSome_some, Option.isSome_none, if_true, if_false,
    Bool.false_eq_true, Nat.add_zero]
  omega

theorem sum_update_caches (f : Nat → List Nat) (cpu : Nat) (L : List Nat)
    (hcpu : cpu < nCpu) :
    ∑ i ∈ Finset.range nCpu,
        ((Function.update f cpu L i : List Nat) : Multiset Nat)
      = (L : Multiset Nat) +
        ∑ i ∈ (Finset.range nCpu).erase cpu,
          ((f i : List Nat) : Multiset Nat) := by
  rw [← Finset.add_sum_erase _ _ (Finset.mem_range.mpr hcpu)]
  congr 1
  · simp
  · refine Finset.sum_congr rfl fun j hj => ?_
    rw [Function.update_noteq (Finset.ne_of_mem_erase hj)]

theorem card_finsum (s : Finset Nat) (f : Nat → Multiset Nat) :
    Multiset.card (∑ i ∈ s, f i) = ∑ i ∈ s, Multiset.card (f i) := by
  classical
  induction s using Finset.induction_on with
  | empty => simp
  | insert h ih => rw [Finset.sum_insert h, Finset.sum_insert h,
      Multiset.card_add, ih]

theorem allocCount_eq_card (c : Conn) :
    allocCount nCpu c = Multiset.card (allocTokens nCpu c) := by
  unfold allocCount allocTokens
  rw [Multiset.card_add, Multiset.coe_card, card_finsum]
  simp [Multiset.coe_card]

/-- fuse_put_unique succeeds whenever the global pool cannot overflow, and
then reclaims exactly the released identifier, clears the released slot,
and touches nothing else observable. -/
theorem fuse_put_unique_spec (c : Conn) (cpu uid : Nat)
    (hcpu : cpu < nCpu)
    (hcap : (c.perCpu cpu).length = PC → c.freeIds.length + PC / 2 ≤ N) :
    ∃ c', fuse_put_unique N PC c cpu uid = some c' ∧
      allocTokens nCpu c' = uid ::ₘ allocTokens nCpu c ∧
      c'.requestMap = c.requestMap.set (uid % N) none ∧
      c'.connected = c.connected ∧ c'.ended = c.ended ∧
      (2 ≤ PC → (c.perCpu cpu).length ≤ PC →
        (c'.perCpu cpu).length ≤ PC) := by
  unfold fuse_put_unique
  by_cases h1 : (c.perCpu cpu).length = PC
  · rw [if_pos h1, if_neg (by have := hcap h1; omega)]
    refine ⟨_, rfl, ?_, rfl, rfl, rfl, ?_⟩
    · unfold allocTokens
      show ((((c.perCpu cpu).take (PC / 2) ++ c.freeIds : List Nat))
          : Multiset Nat) + _ = _
      rw [sum_update_caches nCpu _ _ _ hcpu,
        ← Finset.add_sum_erase _
          (fun i => ((c.perCpu i : List Nat) : Multiset Nat))
          (Finset.mem_range.mpr hcpu)]
      rw [← Multiset.coe_add, ← Multiset.cons_coe, ← Multiset.singleton_add,
        ← Multiset.singleton_add]
      have hc : ((c.perCpu cpu : List Nat) : Multiset Nat)
          = ↑((c.perCpu cpu).take (PC / 2)) + ↑((c.perCpu cpu).drop (PC / 2)) := by
        rw [Multiset.coe_add, List.take_append_drop]
      rw [hc]
      abel
    · intro hPC _
      simp only [Function.update_same, List.length_cons, List.length_drop]
      omega
  · rw [if_neg h1]
    refine ⟨_, rfl, ?_, rfl, rfl, rfl, ?_⟩
    · unfold allocTokens
      rw [sum_update_caches nCpu _ _ _ hcpu,
        ← Finset.add_sum_erase _
          (fun i => ((c.perCpu i : List Nat) : Multiset Nat))
          (Finset.mem_range.mpr hcpu)]
      rw [← Multiset.cons_coe, ← Multiset.singleton_add,
        ← Multiset.singleton_add]
      abel
    · intro hPC hle
      simp only [Function.update_same, List.length_cons]
      omega

/-- request_end under the same capacity condition: appends one finalization
to the log, reclaims the identifier, clears the slot. -/
theorem request_end_spec (c : Conn) (cpu : Nat) (req : Req)
    (hcpu : cpu < nCpu)
    (hcap : (c.perCpu cpu).length = PC → c.freeIds.length + PC / 2 ≤ N) :
    ∃ c', request_end N PC c cpu req = some c' ∧
      allocTokens nCpu c' = req.unique ::ₘ allocTokens nCpu c ∧
      c'.requestMap = c.requestMap.set (req.unique % N) none ∧
      c'.connected = c.connected ∧
      c'.ended = c.ended ++ [(req.unique, req.outError)] ∧
      (2 ≤ PC → (c.perCpu cpu).length ≤ PC →
        (c'.perCpu cpu).length ≤ PC) := by
  obtain ⟨c', h1, h2, h3, h4, h5, h6⟩ := fuse_put_unique_spec N PC nCpu
    { c with ended := c.ended ++ [(req.unique, req.outError)] } cpu
    req.unique hcpu hcap
  exact ⟨c', h1, h2, h3, h4, h5, h6⟩

/-- The Slot-Table walk over any list of distinct in-range slot indices, on
a well-formed table within allocator capacity: it succeeds, clears exactly
the visited occupied slots, appends one -ECONNABORTED finalization per
occupied visited slot in visit order, and reclaims exactly those
identifiers into the allocator. -/
theorem endQueuedWalk_spec (cpu : Nat) (hcpu : cpu < nCpu) (hPC : 2 ≤ PC) :
    ∀ (idxs : List Nat) (c : Conn),
      (∀ i ∈ idxs, i < N) → idxs.Nodup →
      c.requestMap.length = N → slotWF N c →
      allocCount nCpu c + mapCount c ≤ N →
      (c.perCpu cpu).length ≤ PC →
      ∃ c', endQueuedWalk N PC cpu idxs c = some c' ∧
        (∀ i ∈ idxs, c'.requestMap.getD i none = none) ∧
        (∀ j, j ∉ idxs →
          c'.requestMap.getD j none = c.requestMap.getD j none) ∧
        c'.requestMap.length = N ∧
        c'.connected = c.connected ∧
        c'.ended = c.ended ++ (idxs.filterMap fun i =>
          (c.requestMap.getD i none).map fun r => (r.unique, -ECONNABORTED)) ∧
        allocTokens nCpu c' = allocTokens nCpu c +
          ↑(idxs.filterMap fun i =>
            (c.requestMap.getD i none).map fun r => r.unique) := by
  intro idxs
  induction idxs with
  | nil =>
    intro c _ _ hlen _ _ _
    exact ⟨c, rfl, by simp, fun j _ => rfl, hlen, rfl, by simp, by simp⟩
  | cons i rest ih =>
    intro c hin hnd hlen hwf htok hcache
    have hiN : i < N := hin i (by simp)
    have hilen : i < c.requestMap.length := by rw [hlen]; exact hiN
    have hirest : i ∉ rest := (List.nodup_cons.mp hnd).1
    cases hgi : c.requestMap.getD i none with
    | none =>
      obtain ⟨c', h1, h2, h3, h4, h5, h6, h7⟩ := ih c
        (fun j hj => hin j (by simp [hj])) (List.nodup_cons.mp hnd).2
        hlen hwf htok hcache
      refine ⟨c', ?_, ?_, ?_, h4, h5, ?_, ?_⟩
      · rw [endQueuedWalk, hgi]
        exact h1
      · intro i' hi'
        rcases List.mem_cons.mp hi' with h | h
        · subst h
          rw [h3 i' hirest, hgi]
        · exact h2 i' h
      · intro j hj
        exact h3 j (fun hr => hj (List.mem_cons_of_mem i hr))
      · rw [List.filterMap_cons, hgi]
        exact h6
      · rw [List.filterMap_cons, hgi]
        exact h7
    | some req =>
      have huniq : req.unique % N = i := by
        have hw := hwf i hiN
        rw [hgi] at hw
        simpa using hw
      have hcap : (c.perCpu cpu).length = PC →
          c.freeIds.length + PC / 2 ≤ N := by
        intro hfull
        have h1 : PC ≤ ∑ j ∈ Finset.range nCpu, (c.perCpu j).length := by
          rw [← hfull]
          exact @Finset.single_le_sum Nat Nat _
            (fun j => (c.perCpu j).length) (Finset.range nCpu)
            (fun _ _ => Nat.zero_le _) cpu (Finset.mem_range.mpr hcpu)
        have h2 := htok
        unfold allocCount at h2
        omega
      obtain ⟨c4, he1, he2, he3, he4, he5, he6⟩ := request_end_spec N PC nCpu
        { c with requestMap :=
            (c.requestMap.set i (some { req with outError := -ECONNABORTED })) }
        cpu { req with outError := -ECONNABORTED } hcpu hcap
      have hmap4 : c4.requestMap = c.requestMap.set i none := by
        rw [he3]
        show (c.requestMap.set i _).set (req.unique % N) none = _
        rw [huniq, List.set_set]
      have hlen4 : c4.requestMap.length = N := by
        rw [hmap4, List.length_set, hlen]
      have hwf4 : slotWF N c4 := by
        intro k hk
        rw [hmap4]
        by_cases hki : k = i
        · subst hki
          rw [getD_set_same _ _ _ _ hilen]
          rfl
        · rw [getD_set_ne _ _ _ _ _ (fun h => hki h.symm)]
          exact hwf k hk
      have htok4 : allocCount nCpu c4 + mapCount c4 ≤ N := by
        have hcnt : allocCount nCpu c4 = allocCount nCpu c + 1 := by
          rw [allocCount_eq_card, allocCount_eq_card, he2]
          show Multiset.card (_ ::ₘ allocTokens nCpu c) = _
          rw [Multiset.card_cons]
        have hmc : mapCount c4 + 1 = mapCount c := by
          unfold mapCount
          rw [hmap4]
          exact countP_set_none _ _ req hilen hgi
        omega
      have hcache4 : (c4.perCpu cpu).length ≤ PC := he6 hPC hcache
      obtain ⟨c', h1, h2, h3, h4, h5, h6, h7⟩ := ih c4
        (fun j hj => hin j (by simp [hj])) (List.nodup_cons.mp hnd).2
        hlen4 hwf4 htok4 hcache4
      have hended4 : c4.ended = c.ended ++ [(req.unique, -ECONNABORTED)] :=
        he5
      have hgetD4 : ∀ j, j ≠ i →
          c4.requestMap.getD j none = c.requestMap.getD j none := by
        intro j hj
        rw [hmap4]
        exact getD_set_ne _ _ _ _ _ (fun h => hj h.symm)
      refine ⟨c', ?_, ?_, ?_, h4, by rw [h5, he4], ?_, ?_⟩
      · rw [endQueuedWalk, hgi]
        simp only []
        rw [he1]
        exact h1
      · intro i' hi'
        rcases List.mem_cons.mp hi' with h | h
        · subst h
          rw [h3 i' hirest, hmap4, getD_set_same _ _ _ _ hilen]
        · exact h2 i' h
      · intro j hj
        rw [h3 j (fun hr => hj (List.mem_cons_of_mem i hr))]
        exact hgetD4 j (fun he => hj (by rw [he]; exact List.mem_cons_self i rest))
      · rw [List.filterMap_cons, hgi]
        simp only [Option.map_some']
        rw [h6, hended4]
        have hfm : (rest.filterMap fun k =>
            (c4.requestMap.getD k none).map fun r => (r.unique, -ECONNABORTED))
            = rest.filterMap fun k =>
              (c.requestMap.getD k none).map fun r =>
                (r.unique, -ECONNABORTED) := by
          refine List.filterMap_congr fun k hk => ?_
          rw [hgetD4 k (fun he => hirest (he ▸ hk))]
        rw [hfm]
        simp
      · rw [List.filterMap_cons, hgi]
        simp only [Option.map_some']
        rw [h7, he2]
        have hfm : (rest.filterMap fun k =>
            (c4.requestMap.getD k none).map fun r => r.unique)
            = rest.filterMap fun k =>
              (c.requestMap.getD k none).map fun r => r.unique := by
          refine List.filterMap_congr fun k hk => ?_
          rw [hgetD4 k (fun he => hirest (he ▸ hk))]
        rw [hfm]
        show (({ req with outError := -ECONNABORTED } : Req).unique ::ₘ
          allocTokens nCpu c) + _ = _
        rw [← Multiset.cons_coe, ← Multiset.singleton_add,
          ← Multiset.singleton_add]
        abel

/-- Under slot well-formedness the identifiers reclaimed by an abort are
pairwise distinct: each one hashes to its own slot. -/
theorem abortedIds_nodup (c : Conn) (hlen : c.requestMap.length = N)
    (hwf : slotWF N c) : (abortedIds N c).Nodup := by
  refine List.Nodup.filterMap ?_ (List.nodup_range N)
  intro a a' b hb hb'
  rw [Option.mem_def] at hb hb'
  rcases Option.map_eq_some'.mp hb with ⟨r, hr, hru⟩
  rcases Option.map_eq_some'.mp hb' with ⟨r', hr', hru'⟩
  by_cases ha : a < N
  · by_cases ha' : a' < N
    · have h1 := hwf a ha
      rw [hr] at h1
      simp at h1
      have h2 := hwf a' ha'
      rw [hr'] at h2
      simp at h2
      rw [← h1, ← h2, hru, hru']
    · exfalso
      rw [List.getD_eq_default _ _ (by omega)] at hr'
      exact Option.noConfusion hr'
  · exfalso
    rw [List.getD_eq_default _ _ (by omega)] at hr
    exact Option.noConfusion hr

/-- C2: forced abort on a connected channel succeeds, leaves the channel
disconnected, empties every Slot-Table entry, invokes the end callback of
every previously registered request exactly once with a connection-aborted
status (-ECONNABORTED), and reclaims each of their identifiers (pairwise
distinct) exactly once into the allocator. -/
theorem abort_completeness (c : Conn) (cpu : Nat)
    (hcpu : cpu < nCpu) (hPC : 2 ≤ PC) (hconn : c.connected = true)
    (hlen : c.requestMap.length = N) (hwf : slotWF N c)
    (htok : allocCount nCpu c + mapCount c ≤ N)
    (hcache : (c.perCpu cpu).length ≤ PC) :
    ∃ c', fuse_abort_conn N PC c cpu = some c' ∧
      c'.connected = false ∧
      (∀ i < N, c'.requestMap.getD i none = none) ∧
      c'.ended = c.ended ++ abortedOf N c ∧
      (∀ p ∈ abortedOf N c, p.2 = -ECONNABORTED) ∧
      (abortedOf N c).map Prod.fst = abortedIds N c ∧
      (abortedIds N c).Nodup ∧
      allocTokens nCpu c' = allocTokens nCpu c + ↑(abortedIds N c) := by
  obtain ⟨c', h1, h2, h3, h4, h5, h6, h7⟩ := endQueuedWalk_spec N PC nCpu cpu
    hcpu hPC (List.range N) { c with connected := false }
    (fun i hi => List.mem_range.mp hi) (List.nodup_range N)
    hlen hwf htok hcache
  refine ⟨c', ?_, ?_, ?_, h6, ?_, ?_, abortedIds_nodup N c hlen hwf, h7⟩
  · simp only [fuse_abort_conn, hconn, if_true]
    exact h1
  · rw [h5]
  · intro i hi
    exact h2 i (List.mem_range.mpr hi)
  · intro p hp
    rcases List.mem_filterMap.mp hp with ⟨i, _, hfi⟩
    rcases Option.map_eq_some'.mp hfi with ⟨r, _, hr⟩
    rw [← hr]
  · unfold abortedOf abortedIds
    rw [List.map_filterMap]
    refine List.filterMap_congr fun i _ => ?_
    cases c.requestMap.getD i none <;> rfl

/-- A connected channel with two in-flight requests (identifiers 4 and 1 in
slots 0 and 1) and an otherwise empty allocator. -/
def abortConn : Conn :=
  { connected := true,
    requestMap := [some { unique := 4 }, some { unique := 1 }, none, none],
    freeIds := [], wSequence := 3 }

/-- Witness for C2: aborting the two-request channel finalizes both with
-ECONNABORTED, reclaims ids 4 and 1, and empties the table. -/
theorem abort_completeness_w :
    ∃ c', fuse_abort_conn 4 2 abortConn 0 = some c' ∧
      c'.connected = false ∧
      (∀ i < 4, c'.requestMap.getD i none = none) ∧
      c'.ended = abortConn.ended ++ abortedOf 4 abortConn ∧
      (∀ p ∈ abortedOf 4 abortConn, p.2 = -ECONNABORTED) ∧
      (abortedOf 4 abortConn).map Prod.fst = abortedIds 4 abortConn ∧
      (abortedIds 4 abortConn).Nodup ∧
      allocTokens 1 c' = allocTokens 1 abortConn + ↑(abortedIds 4 abortConn) :=
  abort_completeness 4 2 1 abortConn 0 (by decide) (by decide) rfl rfl
    (by unfold slotWF; decide) (by unfold allocCount mapCount; decide)
    (by decide)

/-- compare_reqs (dev.c:954) as a boolean order: replay candidates are
compared by sequence number only.  The kernel sort() with this comparator
is embedded as a mergeSort under the corresponding order. -/
def seqLE (a b : Req) : Bool := decide (a.sequence ≤ b.sequence)

/-- Read `n` consecutive Ring Queue slots starting at cursor `start`
(advancing modulo the ring capacity): the queue contents a consumer would
dequeue. -/
def readN (slots : List (Option Nat)) : Nat → Nat → List (Option Nat)
  | _start, 0 => []
  | start, n + 1 => slots.getD (start % N) none :: readN slots (start + 1) n

/-- The re-injection loop of fuse_restart_requests (dev.c:1012): walking
the sorted resend array from its last element down to its first, step the
read cursor back one slot (`(read - 1) & (FUSE_REQUEST_QUEUE_SIZE - 1)`)
and store the request there.  The list argument is the reversed resend
array, matching the descending loop index. -/
def reinject (slots : List (Option Nat)) (read : Nat) :
    List Nat → List (Option Nat) × Nat
  | [] => (slots, read)
  | uid :: rest =>
    reinject (slots.set ((read + N - 1) % N) (some uid)) ((read + N - 1) % N)
      rest

/-- The Slot-Table scan of fuse_restart_requests (dev.c:1001): every
registered request whose sequence is strictly below the boundary, in slot
order. -/
def restartCollect (c : Conn) (sequence : Nat) : List Req :=
  (List.range N).filterMap fun i =>
    match c.requestMap.getD i none with
    | none => none
    | some req => if req.sequence < sequence then some req else none

/-- The replay boundary (dev.c:987): the sequence of the oldest still-queued
request, or the next sequence to be issued when the ring is empty; `none`
models dereferencing an invalid queued entry. -/
def restartBoundary (c : Conn) : Option Nat :=
  if c.rRead ≠ c.wWrite then
    match c.ringSlots.getD c.rRead none with
    | none => none
    | some uid =>
      match c.requestMap.getD (uid % N) none with
      | none => none
      | some req => some req.sequence
  else some c.wSequence

/-- fuse_restart_requests (dev.c:972): compute the boundary, collect every
Slot-Table entry below it, sort by sequence (kernel sort() with
compare_reqs), splice the result in front of the queue, and rewrite both
the writer's cached and the reader's read cursor to the new position. -/
def fuse_restart_requests (c : Conn) : Option Conn :=
  match restartBoundary N c with
  | none => none
  | some sequence =>
    let resend := (restartCollect N c sequence).mergeSort seqLE
    let rs := reinject N c.ringSlots c.rRead ((resend.map Req.unique).reverse)
    some { c with ringSlots := rs.1, wRead := rs.2, rRead := rs.2 }

/-- The number of already-queued (pending) entries between the reader's
read cursor and the writer's write cursor. -/
def pendLen (c : Conn) : Nat := (c.wWrite + N - c.rRead) % N

theorem readN_congr (slots : List (Option Nat)) :
    ∀ (n start start' : Nat), start % N = start' % N →
      readN N slots start n = readN N slots start' n := by
  intro n
  induction n with
  | zero => intro start start' _; rfl
  | succ m ih =>
    intro start start' h
    rw [readN, readN, h, ih (start + 1) (start' + 1) (Nat.ModEq.add_right 1 h)]

theorem readN_set_outside (slots : List (Option Nat)) (p : Nat)
    (v : Option Nat) :
    ∀ (n start : Nat), (∀ k < n, (start + k) % N ≠ p) →
      readN N (slots.set p v) start n = readN N slots start n := by
  intro n
  induction n with
  | zero => intro start _; rfl
  | succ m ih =>
    intro start h
    rw [readN, readN]
    congr 1
    · refine getD_set_ne _ _ _ _ _ (fun he => ?_)
      exact h 0 (Nat.succ_pos m) (by rw [Nat.add_zero]; exact he.symm)
    · exact ih (start + 1) fun k hk => by
        rw [Nat.add_assoc, Nat.add_comm 1 k, ← Nat.add_assoc]
        exact h (k + 1) (by omega)

theorem reinject_spec (hN : 0 < N) :
    ∀ (lrev : List Nat) (slots : List (Option Nat)) (start n : Nat),
      slots.length = N → start < N → lrev.length + n ≤ N →
      (reinject N slots start lrev).2 < N ∧
      readN N (reinject N slots start lrev).1
          (reinject N slots start lrev).2 (lrev.length + n)
        = lrev.reverse.map some ++ readN N slots start n := by
  intro lrev
  induction lrev with
  | nil =>
    intro slots start n _ hstart _
    refine ⟨hstart, ?_⟩
    rw [show ([] : List Nat).length + n = n from by simp]
    simp only [List.reverse_nil, List.map_nil, List.nil_append]
    rfl
  | cons uid rest ih =>
    intro slots start n hlen hstart hcnt
    simp only [List.length_cons] at hcnt
    have hp : (start + N - 1) % N < N := Nat.mod_lt _ hN
    have hplen : (start + N - 1) % N < slots.length := by
      rw [hlen]
      exact hp
    have hrec := ih (slots.set ((start + N - 1) % N) (some uid))
      ((start + N - 1) % N) (n + 1) (by rw [List.length_set]; exact hlen) hp
      (by omega)
    have hstep : reinject N slots start (uid :: rest)
        = reinject N (slots.set ((start + N - 1) % N) (some uid))
          ((start + N - 1) % N) rest := rfl
    refine ⟨by rw [hstep]; exact hrec.1, ?_⟩
    rw [hstep, show (uid :: rest).length + n = rest.length + (n + 1) from by
      simp only [List.length_cons]; omega, hrec.2]
    have hmod1 : ((start + N - 1) % N + 1) % N = start % N := by
      have h1 : ((start + N - 1) % N + 1) % N = (start + N - 1 + 1) % N :=
        Nat.ModEq.add_right 1 (Nat.mod_modEq (start + N - 1) N)
      rw [h1, show start + N - 1 + 1 = start + N from by omega,
        Nat.add_mod_right]
    have hcond : ∀ k < n,
        ((start + N - 1) % N + 1 + k) % N ≠ (start + N - 1) % N := by
      intro k hk he
      have h0 : ((start + N - 1) % N + 1 + k) % N = (start + N - 1) % N % N := by
        rw [he, Nat.mod_mod_of_dvd _ (dvd_refl N)]
      have h1 : N ∣ (start + N - 1) % N + 1 + k - (start + N - 1) % N :=
        (Nat.modEq_iff_dvd' (by omega)).mp h0.symm
      have h2 : N ≤ 1 + k := Nat.le_of_dvd (by omega) (by
        rwa [show (start + N - 1) % N + 1 + k - (start + N - 1) % N = 1 + k
          from by omega] at h1)
      omega
    have hhead : readN N (slots.set ((start + N - 1) % N) (some uid))
        ((start + N - 1) % N) (n + 1)
        = some uid :: readN N slots start n := by
      rw [readN]
      congr 1
      · rw [Nat.mod_eq_of_lt hp]
        exact getD_set_same _ _ _ _ hplen
      · rw [readN_set_outside N slots ((start + N - 1) % N) (some uid) n
          ((start + N - 1) % N + 1) hcond]
        exact readN_congr N slots n ((start + N - 1) % N + 1) start hmod1
    rw [hhead]
    simp

/-- C1: replay after a disconnect collects every Slot-Table entry whose
sequence is strictly below the boundary (the sequence of the oldest
still-queued request, or the next sequence to be issued if the ring is
empty), sorts them by sequence, and re-injects them at the front of the
Ring Queue ahead of every already-queued request: the post-replay queue
presents exactly the collected requests in ascending sequence order,
followed by the previously queued requests, so the next consumer reads
replayed requests (in submission order) before anything queued later. -/
theorem restart_requests_replay (c : Conn) (seq : Nat)
    (hN : 0 < N) (hlen : c.ringSlots.length = N) (hread : c.rRead < N)
    (hb : restartBoundary N c = some seq)
    (hcnt : (restartCollect N c seq).length + pendLen N c ≤ N) :
    ∃ c', fuse_restart_requests N c = some c' ∧
      ((restartCollect N c seq).mergeSort seqLE).Perm
        (restartCollect N c seq) ∧
      List.Pairwise (fun a b : Req => a.sequence ≤ b.sequence)
        ((restartCollect N c seq).mergeSort seqLE) ∧
      c'.wRead = c'.rRead ∧
      readN N c'.ringSlots c'.rRead
          (((restartCollect N c seq).mergeSort seqLE).length + pendLen N c)
        = ((restartCollect N c seq).mergeSort seqLE).map
            (fun r => some r.unique)
          ++ readN N c.ringSlots c.rRead (pendLen N c) := by
  have htrans : ∀ a b c' : Req, seqLE a b = true → seqLE b c' = true →
      seqLE a c' = true := by
    intro a b c' hab hbc
    simp only [seqLE, decide_eq_true_eq] at hab hbc ⊢
    omega
  have htotal : ∀ a b : Req, (seqLE a b || seqLE b a) = true := by
    intro a b
    simp only [seqLE, Bool.or_eq_true, decide_eq_true_eq]
    omega
  have hlrev : ((((restartCollect N c seq).mergeSort seqLE).map
      Req.unique).reverse).length + pendLen N c ≤ N := by
    rw [List.length_reverse, List.length_map, List.length_mergeSort]
    exact hcnt
  obtain ⟨h1, h2⟩ := reinject_spec N hN
    ((((restartCollect N c seq).mergeSort seqLE).map Req.unique).reverse)
    c.ringSlots c.rRead (pendLen N c) hlen hread hlrev
  refine ⟨{ c with
      ringSlots := (reinject N c.ringSlots c.rRead
        ((((restartCollect N c seq).mergeSort seqLE).map
          Req.unique).reverse)).1,
      wRead := (reinject N c.ringSlots c.rRead
        ((((restartCollect N c seq).mergeSort seqLE).map
          Req.unique).reverse)).2,
      rRead := (reinject N c.ringSlots c.rRead
        ((((restartCollect N c seq).mergeSort seqLE).map
          Req.unique).reverse)).2 },
    ?_, List.mergeSort_perm _ _, ?_, rfl, ?_⟩
  · unfold fuse_restart_requests
    rw [hb]
  · exact (List.sorted_mergeSort htrans htotal
      (restartCollect N c seq)).imp fun hab => by
        simpa [seqLE] using hab
  · show readN N (reinject N c.ringSlots c.rRead _).1
        (reinject N c.ringSlots c.rRead _).2 _ = _
    rw [show (((restartCollect N c seq).mergeSort seqLE).length + pendLen N c)
        = ((((restartCollect N c seq).mergeSort seqLE).map
            Req.unique).reverse).length + pendLen N c from by
      rw [List.length_reverse, List.length_map]]
    rw [h2, List.reverse_reverse, List.map_map]
    rfl

/-- A channel after a disconnect: two undelivered requests (sequences 1 and
2, identifiers 1 and 2) left in the Slot Table, one still-queued request
(identifier 3, sequence 5) at ring position 3, reader cursor 3, writer
cursor wrapped to 0. -/
def replayConn : Conn :=
  { requestMap := [none, some { unique := 1, sequence := 1 },
      some { unique := 2, sequence := 2 },
      some { unique := 3, sequence := 5 }],
    ringSlots := [none, none, none, some 3],
    rRead := 3, rWrite := 3, wRead := 0, wWrite := 0, wSequence := 6 }

/-- Witness for C1: replay on the concrete channel re-presents ids 1 and 2
(in that sequence order) ahead of the queued id 3. -/
theorem restart_requests_replay_w :
    ∃ c', fuse_restart_requests 4 replayConn = some c' ∧
      ((restartCollect 4 replayConn 5).mergeSort seqLE).Perm
        (restartCollect 4 replayConn 5) ∧
      List.Pairwise (fun a b : Req => a.sequence ≤ b.sequence)
        ((restartCollect 4 replayConn 5).mergeSort seqLE) ∧
      c'.wRead = c'.rRead ∧
      readN 4 c'.ringSlots c'.rRead
          (((restartCollect 4 replayConn 5).mergeSort seqLE).length
            + pendLen 4 replayConn)
        = ((restartCollect 4 replayConn 5).mergeSort seqLE).map
            (fun r => some r.unique)
          ++ readN 4 replayConn.ringSlots replayConn.rRead
              (pendLen 4 replayConn) :=
  restart_requests_replay 4 replayConn 5 (by decide) rfl (by decide) rfl
    (by decide)

/-- The freshly initialized fuse_conn of fuse_conn_init (dev.c:839): a full
global pool holding ids 0..N-1 (free_ids[i] = N-i-1, so the top of the
stack is id 0), empty CPU caches, empty Slot Table, empty ring, sequence
counter 1. -/
def initConn : Conn :=
  { connected := true,
    freeIds := List.range N,
    perCpu := fun _ => [],
    requestMap := List.replicate N none,
    ringSlots := List.replicate N none,
    wSequence := 1 }

/-- One allocator step: some CPU acquires a fresh identifier (which becomes
in-flight) or releases an in-flight one.  The `some`-success requirements
are exactly the BUG_ON capacity guards of the C code. -/
inductive AllocStep : Conn × List Nat → Conn × List Nat → Prop
  | acquire (c c' : Conn) (fl : List Nat) (cpu uid : Nat) :
      cpu < nCpu → fuse_get_unique N PC c cpu = some (uid, c') →
      AllocStep (c, fl) (c', uid :: fl)
  | release (c c' : Conn) (fl : List Nat) (cpu uid : Nat) :
      cpu < nCpu → uid ∈ fl → fuse_put_unique N PC c cpu uid = some c' →
      AllocStep (c, fl) (c', fl.erase uid)

/-- States (connection, in-flight identifier list) reachable from the
freshly initialized allocator by any interleaving of per-CPU acquires and
releases. -/
inductive AllocReach : Conn × List Nat → Prop
  | init : AllocReach (initConn N, [])
  | step {s t} : AllocReach s → AllocStep N PC nCpu s t → AllocReach t

/-- The residues modulo N of all identifier tokens — allocator-held plus
in-flight — always form exactly one copy of 0..N-1. -/
def allocInv (c : Conn) (fl : List Nat) : Prop :=
  Multiset.map (· % N) (allocTokens nCpu c + ↑fl) = ↑(List.range N)

/-- The u64 offsetting of a popped identifier preserves its residue modulo
the (power-of-two) id capacity. -/
theorem offsetUid_mod (hdvd : N ∣ U64) (v : Nat) :
    offsetUid N v % N = v % N := by
  unfold offsetUid
  split_ifs with h
  · rw [Nat.mod_mod_of_dvd _ hdvd, Nat.add_mod_right,
      Nat.mod_mod_of_dvd _ hdvd, Nat.add_mod_right]
  · rw [Nat.mod_mod_of_dvd _ hdvd, Nat.add_mod_right]

/-- Acquiring moves one token out of the allocator and hands back its u64
offset. -/
theorem fuse_get_unique_tokens (c : Conn) (cpu uid : Nat) (c' : Conn)
    (hcpu : cpu < nCpu) (h : fuse_get_unique N PC c cpu = some (uid, c')) :
    ∃ v, allocTokens nCpu c = v ::ₘ allocTokens nCpu c' ∧
      uid = offsetUid N v := by
  unfold fuse_get_unique at h
  split_ifs at h with h1 h2
  · split at h
    · exact absurd h (by simp)
    · next v rest htake =>
      simp only [Option.some.injEq, Prod.mk.injEq] at h
      obtain ⟨hu, hc⟩ := h
      subst hc
      refine ⟨v, ?_, hu.symm⟩
      have hcache : c.perCpu cpu = [] := List.isEmpty_iff.mp h1
      unfold allocTokens
      rw [sum_update_caches nCpu _ _ _ hcpu,
        ← Finset.add_sum_erase _
          (fun i => ((c.perCpu i : List Nat) : Multiset Nat))
          (Finset.mem_range.mpr hcpu)]
      rw [hcache]
      have hg : ((c.freeIds : List Nat) : Multiset Nat)
          = ↑(v :: rest) + ↑(c.freeIds.drop (min c.freeIds.length (PC / 2))) := by
        rw [Multiset.coe_add, ← htake, List.take_append_drop]
      rw [hg, ← Multiset.cons_coe, ← Multiset.singleton_add,
        ← Multiset.singleton_add, Multiset.coe_nil]
      abel
  · split at h
    · exact absurd h (by simp)
    · next v rest hcache =>
      simp only [Option.some.injEq, Prod.mk.injEq] at h
      obtain ⟨hu, hc⟩ := h
      subst hc
      refine ⟨v, ?_, hu.symm⟩
      unfold allocTokens
      rw [sum_update_caches nCpu _ _ _ hcpu,
        ← Finset.add_sum_erase _
          (fun i => ((c.perCpu i : List Nat) : Multiset Nat))
          (Finset.mem_range.mpr hcpu)]
      rw [hcache, ← Multiset.cons_coe, ← Multiset.singleton_add,
        ← Multiset.singleton_add]
      abel

/-- A successful release moves the released token back into the
allocator. -/
theorem fuse_put_unique_tokens_of (c : Conn) (cpu uid : Nat) (c' : Conn)
    (hcpu : cpu < nCpu) (h : fuse_put_unique N PC c cpu uid = some c') :
    allocTokens nCpu c' = uid ::ₘ allocTokens nCpu c := by
  unfold fuse_put_unique at h
  split_ifs at h with h1 h2
  · injection h with h
    subst h
    unfold allocTokens
    rw [sum_update_caches nCpu _ _ _ hcpu,
      ← Finset.add_sum_erase _
        (fun i => ((c.perCpu i : List Nat) : Multiset Nat))
        (Finset.mem_range.mpr hcpu)]
    rw [← Multiset.coe_add, ← Multiset.cons_coe, ← Multiset.singleton_add,
      ← Multiset.singleton_add]
    have hc : ((c.perCpu cpu : List Nat) : Multiset Nat)
        = ↑((c.perCpu cpu).take (PC / 2)) + ↑((c.perCpu cpu).drop (PC / 2)) := by
      rw [Multiset.coe_add, List.take_append_drop]
    rw [hc]
    abel
  · injection h with h
    subst h
    unfold allocTokens
    rw [sum_update_caches nCpu _ _ _ hcpu,
      ← Finset.add_sum_erase _
        (fun i => ((c.perCpu i : List Nat) : Multiset Nat))
        (Finset.mem_range.mpr hcpu)]
    rw [← Multiset.cons_coe, ← Multiset.singleton_add,
      ← Multiset.singleton_add]
    abel

/-- Every allocator step preserves the residue invariant. -/
theorem allocStep_inv (hdvd : N ∣ U64) {s t : Conn × List Nat}
    (hstep : AllocStep N PC nCpu s t) (hinv : allocInv N nCpu s.1 s.2) :
    allocInv N nCpu t.1 t.2 := by
  cases hstep with
  | acquire c c' fl cpu uid hcpu hget =>
    obtain ⟨v, htok, huid⟩ := fuse_get_unique_tokens N PC nCpu c cpu uid c'
      hcpu hget
    unfold allocInv at hinv ⊢
    rw [htok] at hinv
    rw [← Multiset.cons_coe, show allocTokens nCpu c' + (uid ::ₘ ↑fl)
        = uid ::ₘ (allocTokens nCpu c' + ↑fl) from by
      rw [← Multiset.singleton_add, ← Multiset.singleton_add]; abel,
      Multiset.map_cons]
    rw [show (v ::ₘ allocTokens nCpu c') + ↑fl
        = v ::ₘ (allocTokens nCpu c' + ↑fl) from by
      rw [← Multiset.singleton_add, ← Multiset.singleton_add]; abel,
      Multiset.map_cons] at hinv
    rw [huid, offsetUid_mod N hdvd v]
    exact hinv
  | release c c' fl cpu uid hcpu hmem hput =>
    have htok := fuse_put_unique_tokens_of N PC nCpu c cpu uid c' hcpu hput
    unfold allocInv at hinv ⊢
    rw [htok]
    rw [show (uid ::ₘ allocTokens nCpu c) + ↑(fl.erase uid)
        = allocTokens nCpu c + (uid ::ₘ ↑(fl.erase uid)) from by
      rw [← Multiset.singleton_add, ← Multiset.singleton_add]
      abel]
    rw [Multiset.cons_coe,
      ← Multiset.coe_eq_coe.mpr (List.perm_cons_erase hmem)]
    exact hinv

/-- Every reachable allocator state satisfies the residue invariant. -/
theorem allocReach_inv (hdvd : N ∣ U64) {s : Conn × List Nat}
    (h : AllocReach N PC nCpu s) : allocInv N nCpu s.1 s.2 := by
  induction h with
  | init =>
    unfold allocInv initConn allocTokens
    have hz : ∑ i ∈ Finset.range nCpu,
        ((((fun _ : Nat => ([] : List Nat)) i : List Nat)) : Multiset Nat)
        = 0 := by
      simp
    rw [hz]
    simp only [add_zero, Multiset.coe_nil, Multiset.map_coe]
    have hid : (List.range N).map (· % N) = (List.range N).map id :=
      List.map_congr_left fun x hx =>
        Nat.mod_eq_of_lt (List.mem_range.mp hx)
    rw [hid, List.map_id]
  | step _ hstep ih => exact allocStep_inv N PC nCpu hdvd hstep ih

/-- C3: in every allocator state reachable by any interleaving of per-CPU
acquires and releases in which the BUG_ON capacity guards never trip (the
in-flight count stays within the sized capacity), no two simultaneously
in-flight requests hold the same identifier. -/
theorem inflight_ids_nodup (hdvd : N ∣ U64) (c : Conn) (fl : List Nat)
    (h : AllocReach N PC nCpu (c, fl)) : fl.Nodup := by
  have hinv := allocReach_inv N PC nCpu hdvd h
  unfold allocInv at hinv
  have hnd : (Multiset.map (· % N) (allocTokens nCpu c + ↑fl)).Nodup := by
    rw [hinv]
    exact Multiset.coe_nodup.mpr (List.nodup_range N)
  have h1 : (Multiset.map (· % N) (fl : Multiset Nat)).Nodup :=
    Multiset.nodup_of_le (Multiset.map_le_map (Multiset.le_add_left _ _)) hnd
  exact Multiset.coe_nodup.mp (Multiset.Nodup.of_map _ h1)

/-- Witness for C3: after two acquires on different CPUs from the fresh
8-id allocator, the two in-flight identifiers (8 and 10) are distinct. -/
theorem inflight_ids_nodup_w : ([10, 8] : List Nat).Nodup :=
  inflight_ids_nodup 8 4 2 (by decide) _ [10, 8]
    (AllocReach.step
      (AllocReach.step AllocReach.init
        (AllocStep.acquire _ _ _ 0 8 (by decide) rfl))
      (AllocStep.acquire _ _ _ 1 10 (by decide) rfl))

end PxDev
